import Mathlib

/-!
Shallow embedding of the core of the `RAG` package: the persistent vector
store (`RAG/storage/simple_vector_store.py`) and the conversation memory
layer (`RAG/conversation/history.py`, `RAG/conversation/context.py`).

Python machine-level details that cannot appear in a shallow embedding are
abstracted as parameters of an `Env` record: the process-randomized string
hash (`hash`), the external embedding provider, the external LLM call, and
whether file writes succeed.  Floating point similarity arithmetic is
modelled over `ℚ`, with `np.linalg.norm` (a float `sqrt`) abstracted as an
environment function.  Python's built-in stable `list.sort` is modelled by
a stable insertion sort: a stable sort of a list by a key is unique, so any
faithful model of `sort(key=..., reverse=True)` agrees with it.
-/

/-- Values stored in a Python metadata dict.  `null` stands for Python
`None`, which is also the result of `dict.get` on a missing key. -/
inductive MVal where
  | null : MVal
  | s (v : String) : MVal
  | n (v : ℚ) : MVal
  | b (v : Bool) : MVal
deriving DecidableEq, Repr

/-- A Python dict with string keys, as an association list (first binding
of a key wins; real dicts never hold a key twice). -/
abbrev Meta := List (String × MVal)

/-- `metadata.get(key)`: value of the first binding of `k`, Python `None`
(i.e. `MVal.null`) when absent. -/
def mget (md : Meta) (k : String) : MVal :=
  match md.find? (fun p => p.1 = k) with
  | some p => p.2
  | none => MVal.null

/-- `{**md, k: v}`: Python dict-rebuild with one key updated; keeps key
order, appends `k` at the end when it was absent. -/
def dictSet (md : Meta) (k : String) (v : MVal) : Meta :=
  if md.any (fun p => p.1 = k) then
    md.map (fun p => if p.1 = k then (k, v) else p)
  else
    md ++ [(k, v)]

/-- `langchain_core.documents.Document`: the fields the store uses. -/
structure Document where
  page_content : String
  metadata : Meta
deriving DecidableEq, Repr

instance : Inhabited Document := ⟨⟨"", []⟩⟩

/-! ## `RAG/conversation/history.py` -/

/-- `ConversationMessage` (dataclass): role/content/timestamp plus the
optional fields. -/
structure ConversationMessage where
  role : String
  content : String
  timestamp : String
  metadata : Option Meta := none
  knowledge_sources : Option (List String) := none
deriving DecidableEq, Repr

instance : Inhabited ConversationMessage := ⟨⟨"", "", "", none, none⟩⟩

/-- `ConversationHistory` (dataclass).  `max_turns` and `summary_turn` are
Python ints that are non-negative in every reachable state, embedded as
`Nat`; arithmetic on them is done in `ℤ` where Python could go negative. -/
structure ConversationHistory where
  conversation_id : String
  messages : List ConversationMessage := []
  created_at : String := ""
  updated_at : String := ""
  metadata : Meta := []
  max_turns : Nat := 30
  summary : String := ""
  summary_turn : Nat := 0
deriving DecidableEq, Repr

namespace ConversationHistory

/-- Python `xs[-k:]` for a non-negative `k`: the last `k` elements, except
that `k = 0` gives the whole list (because `-0 == 0` and `xs[0:] = xs`). -/
def pySliceLast (k : Nat) (xs : List α) : List α :=
  if k = 0 then xs else xs.drop (xs.length - k)

/-- `ConversationHistory.add_message`.  `now` stands for
`datetime.now().isoformat()`. -/
def add_message (h : ConversationHistory) (m : ConversationMessage)
    (now : String) : ConversationHistory :=
  let msgs := h.messages ++ [m]
  if msgs.length > h.max_turns * 2 then
    { h with messages := pySliceLast (h.max_turns * 2) msgs,
             updated_at := now, summary := "", summary_turn := 0 }
  else
    { h with messages := msgs, updated_at := now }

/-- `ConversationHistory.get_turns`: `len(self.messages) // 2`. -/
def get_turns (h : ConversationHistory) : Nat :=
  h.messages.length / 2

/-- `ConversationHistory.get_messages_since_summary`. -/
def get_messages_since_summary (h : ConversationHistory) :
    List ConversationMessage :=
  if h.summary = "" then h.messages
  else h.messages.drop (h.summary_turn * 2)

/-- `ConversationHistory.get_recent_messages` with an explicit argument
(`max_turns or self.max_turns` with `None` resolved by the caller; note
Python's `or` also replaces `0`). -/
def get_recent_messages (h : ConversationHistory) (mt : Option Nat) :
    List ConversationMessage :=
  let m := match mt with
    | some k => if k = 0 then h.max_turns else k
    | none => h.max_turns
  pySliceLast (m * 2) h.messages

/-- `ConversationHistory.update_summary`. -/
def update_summary (h : ConversationHistory) (summary : String)
    (turn : Nat) : ConversationHistory :=
  { h with summary := summary, summary_turn := turn }

end ConversationHistory

/-! ## `RAG/conversation/context.py` -/

/-- `ContextConfig` (from `RAG/config.py`): the fields `ContextManager`
reads. -/
structure ContextConfig where
  max_turns : Nat := 30
  context_format : String := "markdown"
  include_timestamps : Bool := false
  compression_method : String := "summary"
  summary_interval : Nat := 3
deriving DecidableEq, Repr

/-- The external effects of the context manager: `self.llm.invoke`
(returns the response content, or fails). -/
structure LlmEnv where
  invoke : String → Except Unit String

/-- Python `str.strip()`: drop leading and trailing whitespace. -/
def pyStrip (s : String) : String :=
  String.mk
    (((s.data.dropWhile Char.isWhitespace).reverse.dropWhile
        Char.isWhitespace).reverse)

namespace ContextManager

open ConversationHistory

/-- `ContextManager.format_message`. -/
def format_message (cfg : ContextConfig) (m : ConversationMessage) : String :=
  let role_name := if m.role = "user" then "用户" else "助手"
  let content := if cfg.include_timestamps then
      "[" ++ m.timestamp ++ "] " ++ m.content
    else m.content
  role_name ++ "：" ++ content

/-- `ContextManager.format_context`. -/
def format_context (cfg : ContextConfig)
    (msgs : List ConversationMessage) : String :=
  if msgs.isEmpty then ""
  else String.intercalate
    (if cfg.context_format = "markdown" then "\n\n" else "\n")
    (msgs.map (format_message cfg))

/-- `ContextManager.should_create_summary`.  The final subtraction is done
in `ℤ` exactly as Python's unbounded ints would. -/
def should_create_summary (cfg : ContextConfig)
    (h : ConversationHistory) : Bool :=
  if ¬ (cfg.compression_method = "summary") then false
  else if h.messages.isEmpty then false
  else if (h.messages.getLastD default).role = "user" then false
  else if h.get_turns < cfg.summary_interval then false
  else if h.summary ≠ "" ∧ h.summary_turn > 0 then
    decide ((h.get_turns : ℤ) - (h.summary_turn : ℤ) ≥ (cfg.summary_interval : ℤ))
  else
    decide (h.get_turns ≥ cfg.summary_interval)

/-- `ContextManager.create_incremental_summary`: builds the prompt, calls
the LLM, strips the answer; returns `""` on generation failure or when
there is nothing to summarize. -/
def create_incremental_summary (env : LlmEnv) (cfg : ContextConfig)
    (h : ConversationHistory) : String :=
  let current_turn := h.get_turns
  let haveOld := h.summary ≠ "" ∧ h.summary_turn > 0
  let start_turn := if haveOld then h.summary_turn else 0
  let end_turn := if haveOld then current_turn
    else min cfg.summary_interval current_turn
  let messages_to_summarize :=
    if haveOld then h.get_messages_since_summary
    else if end_turn > 0 then h.messages.take (end_turn * 2) else []
  if messages_to_summarize.isEmpty then ""
  else
    let messages_text := format_context cfg messages_to_summarize
    let prompt :=
      if haveOld then
        "请对以下对话内容进行增量摘要。\n\n之前的摘要：\n" ++ h.summary ++
        "\n\n新的对话内容（第" ++ toString (start_turn + 1) ++ "到" ++
        toString end_turn ++ "轮）：\n" ++ messages_text ++
        "\n\n请创建一个新的摘要，整合之前的摘要和新的对话内容。摘要应该：\n" ++
        "1. 保留之前摘要中的关键信息\n2. 添加新对话中的关键信息\n" ++
        "3. 保持简洁，突出重要点\n4. 用中文输出\n\n新摘要："
      else
        "请对以下对话内容进行摘要。\n\n对话内容（第1到" ++
        toString end_turn ++ "轮）：\n" ++ messages_text ++
        "\n\n请创建一个简洁的摘要，突出对话中的关键信息。摘要应该：\n" ++
        "1. 总结对话的主要话题和内容\n2. 保留重要的细节和信息\n" ++
        "3. 保持简洁\n4. 用中文输出\n\n摘要："
    match env.invoke prompt with
    | Except.ok resp => pyStrip resp
    | Except.error _ => ""

/-- `ContextManager.update_summary`: re-checks the trigger, generates,
commits only a non-empty summary; returns whether a summary was
committed, together with the (possibly) updated history. -/
def update_summary (env : LlmEnv) (cfg : ContextConfig)
    (h : ConversationHistory) : Bool × ConversationHistory :=
  if ¬ should_create_summary cfg h then (false, h)
  else
    let summary := create_incremental_summary env cfg h
    if summary = "" then (false, h)
    else (true, h.update_summary summary h.get_turns)

end ContextManager

/-- Decidable equality for `Except`, so concrete call results can be
checked by `decide`. -/
instance {e a : Type} [DecidableEq e] [DecidableEq a] :
    DecidableEq (Except e a)
  | Except.error x, Except.error y =>
    if h : x = y then isTrue (h ▸ rfl)
    else isFalse (fun hc => h (Except.error.inj hc))
  | Except.ok x, Except.ok y =>
    if h : x = y then isTrue (h ▸ rfl)
    else isFalse (fun hc => h (Except.ok.inj hc))
  | Except.error _, Except.ok _ => isFalse (fun hc => Except.noConfusion hc)
  | Except.ok _, Except.error _ => isFalse (fun hc => Except.noConfusion hc)

/-! ## `RAG/storage/simple_vector_store.py` -/

/-- One embedding vector (`np.array(..., dtype=np.float32)`), over `ℚ`. -/
abbrev Vec := List ℚ

/-- The external world of `SimpleVectorStore`: the process string hash
(`hash`, randomized per Python process), the embedding provider
(`embed_documents` / `embed_query`, may raise), `np.linalg.norm` (float
`sqrt`, abstracted), and whether file writes succeed this call. -/
structure Env where
  pyhash : String → Nat
  embedDocuments : List String → Except Unit (List Vec)
  embedQuery : String → Except Unit Vec
  norm : Vec → ℚ
  saveOk : Bool

/-- `np.dot` on two vectors (dimensions agree in every real call). -/
def dotQ (a b : Vec) : ℚ :=
  ((a.zip b).map (fun p => p.1 * p.2)).sum

/-- Pointwise `vec1 - vec2`. -/
def subQ (a b : Vec) : Vec :=
  (a.zip b).map (fun p => p.1 - p.2)

/-- `SimpleVectorStore._compute_similarity`. -/
def compute_similarity (env : Env) (metric : String) (v1 v2 : Vec) : ℚ :=
  if metric = "cosine" then
    let n1 := env.norm v1
    let n2 := env.norm v2
    if n1 = 0 ∨ n2 = 0 then 0 else dotQ v1 v2 / (n1 * n2)
  else if metric = "euclidean" then
    1 / (1 + env.norm (subQ v1 v2))
  else if metric = "dotproduct" then
    dotQ v1 v2
  else
    dotQ v1 v2 / (env.norm v1 * env.norm v2)

/-- The in-memory state of `SimpleVectorStore`: the three parallel arrays
plus the configured metric. -/
structure Store where
  vectors : List Vec
  metadata_list : List Meta
  documents : List Document
  distance_metric : String
deriving DecidableEq, Repr

/-- The persisted snapshot: the three files of one collection
(`*_vectors.npy`, `*_metadata.json`, `*_documents.pkl`), `none` when the
file does not exist, otherwise its parsed content. -/
structure Disk where
  vectors_file : Option (List Vec)
  metadata_file : Option (List Meta)
  documents_file : Option (List Document)
deriving DecidableEq, Repr

/-- The three in-memory arrays are aligned (spec: parallel arrays). -/
def WF (s : Store) : Prop :=
  s.vectors.length = s.metadata_list.length ∧
  s.vectors.length = s.documents.length

instance (s : Store) : Decidable (WF s) := by unfold WF; infer_instance

/-- `SimpleVectorStore._save_data`: writes the metadata and document
files always, the vectors file only when `self.vectors` is non-empty
(`if self.vectors: np.save(...)`). -/
def saveData (s : Store) (d : Disk) : Disk :=
  { vectors_file := if s.vectors.isEmpty then d.vectors_file
                    else some s.vectors,
    metadata_file := some s.metadata_list,
    documents_file := some s.documents }

/-- `SimpleVectorStore._load_data` (body of `__init__` after the empty
initialisation): all three files present → load them as they are (no
length check); any file missing, or any read raising, → stay empty. -/
def loadData (d : Disk) : List Vec × List Meta × List Document :=
  match d.vectors_file, d.metadata_file, d.documents_file with
  | some v, some m, some docs => (v, m, docs)
  | _, _, _ => ([], [], [])

/-- A fresh `SimpleVectorStore(embedding_function, config)` over an
existing snapshot. -/
def loadStore (d : Disk) (metric : String) : Store :=
  let t := loadData d
  { vectors := t.1, metadata_list := t.2.1, documents := t.2.2,
    distance_metric := metric }

/-- `f"doc_{i}_{hash(content) % 1000000}"`. -/
def mkDocId (i : Nat) (h : Nat) : String :=
  "doc_" ++ toString i ++ "_" ++ toString (h % 1000000)

/-- The ids assigned by one `add_documents` call: the loop variable `i`
runs over `enumerate(zip(documents, embeddings))` and `start_idx` is the
pre-call document count. -/
def addIds (env : Env) (s : Store) (docs : List Document)
    (es : List Vec) : List String :=
  (docs.zip es).enum.map
    (fun p => mkDocId (s.documents.length + p.1) (env.pyhash p.2.1.page_content))

/-- The in-memory state after the append loop of `add_documents`: one
vector, one metadata object and one document appended per zipped pair. -/
def addResultStore (s : Store) (docs : List Document) (es : List Vec) :
    Store :=
  { s with
    vectors := s.vectors ++ (docs.zip es).map (fun p => p.2),
    metadata_list := s.metadata_list ++ (docs.zip es).map (fun p => p.1.metadata),
    documents := s.documents ++ (docs.zip es).map (fun p => p.1) }

/-- `SimpleVectorStore.add_documents`.  The result carries the returned
value (or the propagated exception) together with the in-memory state and
the snapshot after the call; on an exception the in-memory mutation that
already happened is kept, exactly as in Python (a failed `_save_data`
leaves the appended arrays in memory). -/
def add_documents (env : Env) (s : Store) (d : Disk)
    (docs : List Document) : Except Unit (List String) × Store × Disk :=
  if docs.isEmpty then (Except.ok [], s, d)
  else
    match env.embedDocuments (docs.map (fun doc => doc.page_content)) with
    | Except.error e => (Except.error e, s, d)
    | Except.ok es =>
      if env.saveOk then
        (Except.ok (addIds env s docs es), addResultStore s docs es,
         saveData (addResultStore s docs es) d)
      else (Except.error (), addResultStore s docs es, d)

/-- `if filter:` — a `None` or empty filter dict is falsy. -/
def filterActive : Option Meta → Bool
  | none => false
  | some f => ¬ f.isEmpty

/-- The conjunction `all(metadata.get(key) == value for key, value in
filter.items())` (the loop breaks on the first mismatch). -/
def matchFilter (md : Meta) (f : Meta) : Bool :=
  f.all (fun p => mget md p.1 = p.2)

/-- The body of the similarity loop of `search`, one step per enumerated
vector `(i, vec)`, in loop order: skip chunks failing the filter, emit
`(i, similarity)` otherwise.  Reading `self.metadata_list[i]` out of
bounds raises `IndexError`, i.e. `error`. -/
def simsLoop (env : Env) (metric : String) (qv : Vec) (mds : List Meta)
    (filter : Option Meta) : List (Nat × Vec) → Except Unit (List (Nat × ℚ))
  | [] => Except.ok []
  | p :: rest =>
    if filterActive filter then
      match mds[p.1]? with
      | none => Except.error ()
      | some md =>
        if matchFilter md (filter.getD []) then
          match simsLoop env metric qv mds filter rest with
          | Except.error e => Except.error e
          | Except.ok sims =>
            Except.ok ((p.1, compute_similarity env metric qv p.2) :: sims)
        else simsLoop env metric qv mds filter rest
    else
      match simsLoop env metric qv mds filter rest with
      | Except.error e => Except.error e
      | Except.ok sims =>
        Except.ok ((p.1, compute_similarity env metric qv p.2) :: sims)

/-- The similarity loop of `search` over `enumerate(self.vectors)`. -/
def computeSims (env : Env) (metric : String) (qv : Vec)
    (vectors : List Vec) (mds : List Meta) (filter : Option Meta) :
    Except Unit (List (Nat × ℚ)) :=
  simsLoop env metric qv mds filter vectors.enum

/-- Stable insertion step for `sort(key=lambda x: x[1], reverse=True)`:
keep walking past strictly larger scores, stop at the first score `≤`
ours, so earlier elements win ties. -/
def insertDesc (x : Nat × ℚ) : List (Nat × ℚ) → List (Nat × ℚ)
  | [] => [x]
  | y :: ys => if x.2 < y.2 then y :: insertDesc x ys else x :: y :: ys

/-- Python's stable sort by score, descending (`similarities.sort(...)`).
A stable sort is unique, so insertion sort is a faithful model. -/
def sortDesc : List (Nat × ℚ) → List (Nat × ℚ)
  | [] => []
  | x :: xs => insertDesc x (sortDesc xs)

/-- `doc.metadata = {**doc.metadata, "similarity_score": float(score)}`
applied to a document. -/
def setScore (doc : Document) (score : ℚ) : Document :=
  { doc with metadata := dictSet doc.metadata "similarity_score" (MVal.n score) }

/-- The result loop of `search`: for each ranked `(idx, score)` taken,
read `self.documents[idx]` (raising on out-of-bounds), overwrite its
`metadata` attribute in place — the stored object and the returned object
are the same — and collect it.  Returns the results together with the
mutated `documents` array. -/
def buildResults : List (Nat × ℚ) → List Document →
    Except Unit (List Document × List Document)
  | [], docs => Except.ok ([], docs)
  | p :: rest, docs =>
    match docs[p.1]? with
    | none => Except.error ()
    | some doc =>
      match buildResults rest (docs.set p.1 (setScore doc p.2)) with
      | Except.error e => Except.error e
      | Except.ok (res, docs') =>
        Except.ok (setScore doc p.2 :: res, docs')

/-- `SimpleVectorStore.search`.  Returns the result list and the state
after the call (the stored `Document` objects are aliased by the result,
so their mutation is visible in the store). -/
def search (env : Env) (s : Store) (query : String) (top_k : Nat)
    (filter : Option Meta) : Except Unit (List Document × Store) :=
  if s.documents.isEmpty then Except.ok ([], s)
  else
    match env.embedQuery query with
    | Except.error e => Except.error e
    | Except.ok qv =>
      match computeSims env s.distance_metric qv s.vectors s.metadata_list filter with
      | Except.error e => Except.error e
      | Except.ok sims =>
        match buildResults ((sortDesc sims).take top_k) s.documents with
        | Except.error e => Except.error e
        | Except.ok (results, docs') =>
          Except.ok (results, { s with documents := docs' })

/-- `del xs[idx]` for each index in the given order, with the
`if idx < len(xs)` guard (`eraseIdx` out of bounds is the identity). -/
def eraseIdxs (xs : List α) (idxs : List Nat) : List α :=
  idxs.foldl (fun l i => l.eraseIdx i) xs

/-- The match test of `delete` for position `i`: the recomputed positional
id is in the id set, or the stored metadata carries an `id` string in the
set (guarded by `i < len(self.metadata_list)`). -/
def deleteMatches (env : Env) (ids : List String) (mds : List Meta)
    (i : Nat) (doc : Document) : Bool :=
  ids.contains (mkDocId i (env.pyhash doc.page_content)) ||
    match mds[i]? with
    | some md =>
      match mget md "id" with
      | MVal.s v => ids.contains v
      | _ => false
    | none => false

/-- `indices_to_remove`, in the ascending order `enumerate` produces. -/
def deleteIndices (env : Env) (s : Store) (ids : List String) : List Nat :=
  (s.documents.enum.filter
    (fun p => deleteMatches env ids s.metadata_list p.1 p.2)).map
    (fun p => p.1)

/-- The in-memory state after the removal loop of `delete`: each matched
index deleted from the three arrays, iterating in descending order
(`sorted(indices_to_remove, reverse=True)` of an ascending list is its
reverse). -/
def deleteResultStore (env : Env) (s : Store) (ids : List String) : Store :=
  { s with
    vectors := eraseIdxs s.vectors (deleteIndices env s ids).reverse,
    metadata_list := eraseIdxs s.metadata_list (deleteIndices env s ids).reverse,
    documents := eraseIdxs s.documents (deleteIndices env s ids).reverse }

/-- `SimpleVectorStore.delete`: the returned flag plus in-memory state and
snapshot after the call.  On a write failure the exception is caught, the
already-applied in-memory deletions are kept, and `False` is returned. -/
def Store.delete (env : Env) (s : Store) (d : Disk) (ids : List String) :
    Bool × Store × Disk :=
  if ids.isEmpty then (true, s, d)
  else
    if env.saveOk then
      (true, deleteResultStore env s ids,
       saveData (deleteResultStore env s ids) d)
    else (false, deleteResultStore env s ids, d)

/-! ## Theorems -/

/-! ### C3: `get_turns` and the trim rule of `add_message` -/

/-- The trim branch: with `max_turns ≥ 1` the kept slice is the suffix of
the appended list of length exactly `max_turns * 2`. -/
theorem pySliceLast_length_of_le {k : Nat} (xs : List α) (hk : k ≠ 0)
    (h : k ≤ xs.length) :
    (ConversationHistory.pySliceLast k xs).length = k := by
  unfold ConversationHistory.pySliceLast
  rw [if_neg hk, List.length_drop]
  omega

/-- C3 (amended): for every history with `max_turns ≥ 1`, `get_turns()`
is `len(messages) // 2`, and `add_message` either trims to exactly the
most recent `max_turns * 2` messages and resets the summary state (when
the append makes the message count exceed `max_turns * 2`), or appends and
leaves the summary state unchanged.  The amendment excludes
`max_turns = 0`, where CPython's `messages[-0:]` slice keeps the whole
list (see the counterexample). -/
theorem add_message_trim_spec (h : ConversationHistory)
    (m : ConversationMessage) (now : String) (hmax : 1 ≤ h.max_turns) :
    h.get_turns = h.messages.length / 2 ∧
    (h.messages.length + 1 > h.max_turns * 2 →
      (h.add_message m now).messages =
        (h.messages ++ [m]).drop (h.messages.length + 1 - h.max_turns * 2) ∧
      (h.add_message m now).messages.length = h.max_turns * 2 ∧
      (h.add_message m now).summary = "" ∧
      (h.add_message m now).summary_turn = 0) ∧
    (¬ h.messages.length + 1 > h.max_turns * 2 →
      (h.add_message m now).messages = h.messages ++ [m] ∧
      (h.add_message m now).summary = h.summary ∧
      (h.add_message m now).summary_turn = h.summary_turn) := by
  refine ⟨rfl, ?_, ?_⟩
  · intro hgt
    have hlen : (h.messages ++ [m]).length = h.messages.length + 1 := by
      simp
    have hcond : (h.messages ++ [m]).length > h.max_turns * 2 := by omega
    have hk : h.max_turns * 2 ≠ 0 := by omega
    unfold ConversationHistory.add_message
    rw [if_pos hcond]
    refine ⟨?_, ?_, rfl, rfl⟩
    · simp only [ConversationHistory.pySliceLast, if_neg hk, hlen]
    · simp only [ConversationHistory.pySliceLast, if_neg hk, hlen,
        List.length_drop]
      omega
  · intro hle
    have hcond : ¬ (h.messages ++ [m]).length > h.max_turns * 2 := by
      simp only [List.length_append, List.length_singleton]
      omega
    unfold ConversationHistory.add_message
    rw [if_neg hcond]
    exact ⟨rfl, rfl, rfl⟩

/-- Witness for C3 at a concrete input: `max_turns = 1`, two messages
already stored, a third appended — the history is trimmed to the two most
recent messages and the summary is cleared. -/
theorem add_message_trim_spec_witness :
    ({ conversation_id := "w", max_turns := 1, summary := "old",
       summary_turn := 1,
       messages := [⟨"user", "a", "", none, none⟩,
                    ⟨"assistant", "b", "", none, none⟩] } :
      ConversationHistory).messages.length + 1 > 1 * 2 ∧
    (({ conversation_id := "w", max_turns := 1, summary := "old",
        summary_turn := 1,
        messages := [⟨"user", "a", "", none, none⟩,
                     ⟨"assistant", "b", "", none, none⟩] } :
       ConversationHistory).add_message ⟨"user", "c", "", none, none⟩
       "t").messages.length = 1 * 2 := by
  refine ⟨by decide, ?_⟩
  have := (add_message_trim_spec
    { conversation_id := "w", max_turns := 1, summary := "old",
      summary_turn := 1,
      messages := [⟨"user", "a", "", none, none⟩,
                   ⟨"assistant", "b", "", none, none⟩] }
    ⟨"user", "c", "", none, none⟩ "t" (by decide)).2.1 (by decide)
  exact this.2.1

/-- C3 counterexample: at `max_turns = 0` the claim fails: the append
takes the message count past `max_turns * 2 = 0`, yet the trimmed list
keeps 1 message, not `max_turns * 2 = 0` (Python `xs[-0:]` is `xs`); the
summary is nevertheless reset. -/
theorem add_message_zero_max_turns_counterexample :
    (({ conversation_id := "c", max_turns := 0, summary := "old",
        summary_turn := 1 } : ConversationHistory).messages.length + 1 >
        0 * 2) ∧
    (({ conversation_id := "c", max_turns := 0, summary := "old",
        summary_turn := 1 } : ConversationHistory).add_message
        ⟨"user", "hi", "", none, none⟩ "t").messages.length ≠ 0 * 2 := by
  decide

/-! ### C2: the summarization trigger and commit -/

/-- Summarizer stub for the interval-3 scenario: always answers with a
fixed non-empty summary text. -/
def scLlm : LlmEnv := ⟨fun _ => Except.ok "对话摘要内容"⟩

/-- The scenario configuration: `summary_interval = 3`, compression mode
`summary` (the defaults of `ContextConfig`). -/
def scCfg : ContextConfig := {}

/-- One scenario message. -/
def scMsg (role : String) (i : Nat) : ConversationMessage :=
  ⟨role, toString i, "", none, none⟩

/-- Append one complete turn (user message then assistant reply) to a
history, as the chat workflow does. -/
def scTurn (h : ConversationHistory) (i : Nat) : ConversationHistory :=
  (h.add_message (scMsg "user" i) "").add_message (scMsg "assistant" i) ""

def scH0 : ConversationHistory := { conversation_id := "sc" }
def scT1 : ConversationHistory := scTurn scH0 1
def scT2 : ConversationHistory := scTurn scT1 2
def scT3 : ConversationHistory := scTurn scT2 3
def scU3 : Bool × ConversationHistory :=
  ContextManager.update_summary scLlm scCfg scT3
def scT4 : ConversationHistory := scTurn scU3.2 4
def scT5 : ConversationHistory := scTurn scT4 5
def scT6 : ConversationHistory := scTurn scT5 6
def scU6 : Bool × ConversationHistory :=
  ContextManager.update_summary scLlm scCfg scT6

/-- C2 (amended).  Part 1: `should_create_summary` returns `true` iff the
compression method is `"summary"`, the history is non-empty, the last
message's role is **not** `user` (the code accepts any non-user role, e.g.
`system`, not only `assistant` — see the counterexample), the completed
turn count `len(messages) // 2` is at least the interval, and either no
summary state exists (`summary == ""` or `summary_turn == 0`) or at least
`summary_interval` further turns have completed since `summary_turn`.
Part 2: when the trigger holds and the generated summary is non-empty,
`update_summary` commits it with `summary_turn` set to the completed turn
count at the call.  Part 3: the interval-3 scenario: after turn 3 the
trigger fires and commits `summary_turn = 3`; after turns 4 and 5 it does
not fire; after turn 6 it fires again and commits `summary_turn = 6`. -/
theorem should_create_summary_spec :
    (∀ (cfg : ContextConfig) (h : ConversationHistory),
      ContextManager.should_create_summary cfg h = true ↔
        (cfg.compression_method = "summary" ∧ h.messages ≠ [] ∧
         (h.messages.getLastD default).role ≠ "user" ∧
         cfg.summary_interval ≤ h.get_turns ∧
         (h.summary = "" ∨ h.summary_turn = 0 ∨
          h.summary_turn + cfg.summary_interval ≤ h.get_turns))) ∧
    (∀ (env : LlmEnv) (cfg : ContextConfig) (h : ConversationHistory),
      ContextManager.should_create_summary cfg h = true →
      ContextManager.create_incremental_summary env cfg h ≠ "" →
      ContextManager.update_summary env cfg h =
        (true, h.update_summary
          (ContextManager.create_incremental_summary env cfg h)
          h.get_turns)) ∧
    (ContextManager.should_create_summary scCfg scT3 = true ∧
     scU3.1 = true ∧ scU3.2.summary_turn = 3 ∧ scU3.2.summary ≠ "" ∧
     ContextManager.should_create_summary scCfg scT4 = false ∧
     ContextManager.should_create_summary scCfg scT5 = false ∧
     ContextManager.should_create_summary scCfg scT6 = true ∧
     scU6.1 = true ∧ scU6.2.summary_turn = 6 ∧ scU6.2.summary ≠ "") := by
  refine ⟨?_, ?_, by decide⟩
  · intro cfg h
    unfold ContextManager.should_create_summary
    by_cases h1 : cfg.compression_method = "summary"
    · rw [if_neg (not_not_intro h1)]
      by_cases h2 : h.messages.isEmpty = true
      · have h2' : h.messages = [] := by
          cases hm : h.messages with
          | nil => rfl
          | cons a as => rw [hm] at h2; cases h2
        rw [if_pos h2]
        simp [h2']
      · have h2' : h.messages ≠ [] := by
          intro hn; exact h2 (by rw [hn]; rfl)
        rw [if_neg h2]
        by_cases h3 : (h.messages.getLastD default).role = "user"
        · rw [if_pos h3]
          simp only [Bool.false_eq_true, false_iff]
          rintro ⟨-, -, hc, -, -⟩
          exact hc h3
        · rw [if_neg h3]
          by_cases h4 : h.get_turns < cfg.summary_interval
          · rw [if_pos h4]
            simp only [Bool.false_eq_true, false_iff, not_and]
            intro _ _ _ hle
            omega
          · rw [if_neg h4]
            by_cases h5 : h.summary ≠ "" ∧ h.summary_turn > 0
            · rw [if_pos h5]
              rw [decide_eq_true_iff]
              constructor
              · intro hge
                exact ⟨h1, h2', h3, by omega,
                  Or.inr (Or.inr (by omega))⟩
              · rintro ⟨-, -, -, -, hc | hc | hc⟩
                · exact absurd hc h5.1
                · exact absurd hc (by omega)
                · omega
            · rw [if_neg h5]
              rw [decide_eq_true_iff]
              constructor
              · intro hge
                rcases Decidable.not_and_iff_or_not.mp h5 with hc | hc
                · exact ⟨h1, h2', h3, hge,
                    Or.inl (by simpa using hc)⟩
                · exact ⟨h1, h2', h3, hge,
                    Or.inr (Or.inl (by omega))⟩
              · rintro ⟨-, -, -, hle, -⟩
                exact hle
    · rw [if_pos h1]
      simp [h1]
  · intro env cfg h htrig hsum
    unfold ContextManager.update_summary
    rw [if_neg (not_not_intro htrig)]
    simp only [if_neg hsum]

/-- Witness for C2: the amended trigger and the commit rule applied to the
concrete after-turn-3 scenario history. -/
theorem should_create_summary_spec_witness :
    ContextManager.update_summary scLlm scCfg scT3 =
      (true, scT3.update_summary
        (ContextManager.create_incremental_summary scLlm scCfg scT3)
        scT3.get_turns) :=
  should_create_summary_spec.2.1 scLlm scCfg scT3 (by decide) (by decide)

/-- C2 counterexample: with interval 1 and a history whose last message
has role `system`, the code triggers (`should_create_summary = true`)
although the claim's condition "the last message has role assistant" is
false — the code only excludes a trailing `user` message. -/
theorem should_create_summary_nonuser_counterexample :
    ContextManager.should_create_summary { summary_interval := 1 }
      { conversation_id := "c",
        messages := [⟨"user", "a", "", none, none⟩,
                     ⟨"system", "b", "", none, none⟩] } = true ∧
    (([⟨"user", "a", "", none, none⟩,
       ⟨"system", "b", "", none, none⟩] :
        List ConversationMessage).getLastD default).role ≠ "assistant" := by
  decide

/-! ### Concrete fixtures used by witnesses and counterexamples -/

/-- Environment whose hash is constantly `0`, whose document embedder
answers `[1]` for every text, whose query embedder answers the empty
vector (so the dot-product score is the literal `0`, which the kernel can
evaluate), and whose file writes succeed. -/
def exEnv : Env :=
  { pyhash := fun _ => 0,
    embedDocuments := fun ts => Except.ok (ts.map (fun _ => [(1 : ℚ)])),
    embedQuery := fun _ => Except.ok [],
    norm := fun _ => 1,
    saveOk := true }

def exDoc : Document := ⟨"hello", []⟩

/-- One-chunk store (dot-product metric keeps scores rational). -/
def exStore : Store := ⟨[[1]], [[]], [exDoc], "dotproduct"⟩

/-- Snapshot in sync with `exStore`. -/
def exDisk : Disk := ⟨some [[1]], some [[]], some [exDoc]⟩

/-! ### C5: loading a persisted collection -/

/-- The persisted snapshot mirrors the in-memory arrays (the vector blob
only has to match when there are vectors, since `_save_data` skips it
otherwise). -/
def diskSync (s : Store) (d : Disk) : Prop :=
  d.metadata_file = some s.metadata_list ∧
  d.documents_file = some s.documents ∧
  (s.vectors ≠ [] → d.vectors_file = some s.vectors)

instance (s : Store) (d : Disk) : Decidable (diskSync s d) := by
  unfold diskSync; infer_instance

/-- C5 (amended): construction loads the three files verbatim whenever
all three exist and parse — **no length check is performed**, so
mismatched artifacts load into mismatched in-memory arrays; when any file
is missing (or unreadable, which the embedding folds into absence) the
collection starts empty; and a store with a non-empty vector array
round-trips through `_save_data`. -/
theorem load_data_spec :
    (∀ (d : Disk) (metric : String) v m docs,
      d.vectors_file = some v → d.metadata_file = some m →
      d.documents_file = some docs →
      loadStore d metric = ⟨v, m, docs, metric⟩) ∧
    (∀ (d : Disk) (metric : String),
      d.vectors_file = none ∨ d.metadata_file = none ∨
        d.documents_file = none →
      loadStore d metric = ⟨[], [], [], metric⟩) ∧
    (∀ (s : Store) (d : Disk), s.vectors ≠ [] →
      loadStore (saveData s d) s.distance_metric = s) := by
  refine ⟨?_, ?_, ?_⟩
  · intro d metric v m docs hv hm hdocs
    unfold loadStore loadData
    rw [hv, hm, hdocs]
  · intro d metric hnone
    unfold loadStore loadData
    rcases hnone with hn | hn | hn <;> rw [hn] <;>
      cases d.vectors_file <;> cases d.metadata_file <;>
      cases d.documents_file <;> rfl
  · intro s d hne
    have hf : s.vectors.isEmpty = false := List.isEmpty_eq_false.mpr hne
    unfold loadStore loadData saveData
    rw [hf]
    rfl

/-- Witness for C5: the round-trip clause at the concrete one-chunk
store. -/
theorem load_data_spec_witness :
    loadStore (saveData exStore exDisk) exStore.distance_metric = exStore :=
  load_data_spec.2.2 exStore exDisk (by decide)

/-- C5 counterexample: three files all present but length-mismatched (one
vector, zero metadata entries, zero documents) load verbatim into a
mismatched non-empty state — the collection is **not** reinitialized to
empty. -/
theorem load_no_length_check_counterexample :
    loadStore ⟨some [[1]], some [], some []⟩ "cosine" ≠
      ⟨[], [], [], "cosine"⟩ ∧
    ¬ WF (loadStore ⟨some [[1]], some [], some []⟩ "cosine") := by
  decide

/-! ### C4: persistence after mutations -/

/-- C4 (amended): after a successful non-empty `add_documents` or a
non-empty `delete` whose write succeeds, the metadata and document
artifacts are rewritten to mirror the in-memory arrays; the vector blob
is rewritten only when the in-memory vector array is non-empty — a
mutation that leaves the index empty leaves the previous (stale) vector
blob in place. -/
theorem mutation_persists_spec :
    (∀ (env : Env) (s : Store) (d : Disk) (docs : List Document) ids s' d',
      env.saveOk = true → docs ≠ [] →
      add_documents env s d docs = (Except.ok ids, s', d') →
      d'.metadata_file = some s'.metadata_list ∧
      d'.documents_file = some s'.documents ∧
      (s'.vectors ≠ [] → d'.vectors_file = some s'.vectors) ∧
      (s'.vectors = [] → d'.vectors_file = d.vectors_file)) ∧
    (∀ (env : Env) (s : Store) (d : Disk) (ids : List String) b s' d',
      env.saveOk = true → ids ≠ [] →
      Store.delete env s d ids = (b, s', d') →
      d'.metadata_file = some s'.metadata_list ∧
      d'.documents_file = some s'.documents ∧
      (s'.vectors ≠ [] → d'.vectors_file = some s'.vectors) ∧
      (s'.vectors = [] → d'.vectors_file = d.vectors_file)) := by
  constructor
  · intro env s d docs ids s' d' hsave hne heq
    unfold add_documents at heq
    rw [if_neg (by simpa using hne)] at heq
    cases hembed : env.embedDocuments (docs.map (fun doc => doc.page_content)) with
    | error e =>
      rw [hembed] at heq
      simp at heq
    | ok es =>
      simp only [hembed, if_pos hsave] at heq
      have h2 : addResultStore s docs es = s' := congrArg (fun p => p.2.1) heq
      have h3 : saveData (addResultStore s docs es) d = d' :=
        congrArg (fun p => p.2.2) heq
      rw [← h3, h2]
      unfold saveData
      refine ⟨rfl, rfl, ?_, ?_⟩
      · intro hv
        simp only [List.isEmpty_eq_false.mpr hv, Bool.false_eq_true,
          if_false]
      · intro hv
        simp only [hv, List.isEmpty_nil, if_true]
  · intro env s d ids b s' d' hsave hne heq
    unfold Store.delete at heq
    rw [if_neg (by simpa using hne), if_pos hsave] at heq
    have h2 : deleteResultStore env s ids = s' := congrArg (fun p => p.2.1) heq
    have h3 : saveData (deleteResultStore env s ids) d = d' :=
      congrArg (fun p => p.2.2) heq
    rw [← h3, h2]
    unfold saveData
    refine ⟨rfl, rfl, ?_, ?_⟩
    · intro hv
      simp only [List.isEmpty_eq_false.mpr hv, Bool.false_eq_true, if_false]
    · intro hv
      simp only [hv, List.isEmpty_nil, if_true]

/-- Witness for C4: the add clause at a concrete one-document batch over
an empty store. -/
theorem mutation_persists_spec_witness :
    ((add_documents exEnv ⟨[], [], [], "dotproduct"⟩ ⟨none, none, none⟩
        [exDoc]).2.2).metadata_file =
      some ((add_documents exEnv ⟨[], [], [], "dotproduct"⟩
        ⟨none, none, none⟩ [exDoc]).2.1).metadata_list := by
  have h := mutation_persists_spec.1 exEnv ⟨[], [], [], "dotproduct"⟩
    ⟨none, none, none⟩ [exDoc] ["doc_0_0"]
    (add_documents exEnv ⟨[], [], [], "dotproduct"⟩ ⟨none, none, none⟩
      [exDoc]).2.1
    (add_documents exEnv ⟨[], [], [], "dotproduct"⟩ ⟨none, none, none⟩
      [exDoc]).2.2
    rfl (by decide) rfl
  exact h.1

/-- C4 counterexample: deleting the only chunk succeeds and leaves the
in-memory vector array empty, but the persisted vector blob still holds
the deleted vector — the snapshot does not equal the in-memory arrays
after this mutating call. -/
theorem save_skips_empty_vectors_counterexample :
    Store.delete exEnv exStore exDisk ["doc_0_0"] =
      (true, ⟨[], [], [], "dotproduct"⟩, ⟨some [[1]], some [], some []⟩) ∧
    (some [[1]] : Option (List Vec)) ≠ some (⟨[], [], [], "dotproduct"⟩ : Store).vectors := by
  decide

/-! ### C8: `delete` no-ops and failure signalling -/

/-- C8: `delete([])` returns `True` touching neither memory nor disk;
deleting ids matching nothing leaves memory untouched and rewrites the
snapshot to the same content (so a synced snapshot is unchanged);
`delete` returns `False` only when the write fails; and a synced snapshot
is a fixed point of `_save_data`. -/
theorem delete_noop_and_failure_spec :
    (∀ (env : Env) (s : Store) (d : Disk),
      Store.delete env s d [] = (true, s, d)) ∧
    (∀ (env : Env) (s : Store) (d : Disk) (ids : List String),
      env.saveOk = true → ids ≠ [] →
      (∀ i doc, s.documents[i]? = some doc →
        deleteMatches env ids s.metadata_list i doc = false) →
      Store.delete env s d ids = (true, s, saveData s d)) ∧
    (∀ (env : Env) (s : Store) (d : Disk) ids b s' d',
      Store.delete env s d ids = (b, s', d') → b = false →
      env.saveOk = false) ∧
    (∀ (s : Store) (d : Disk), diskSync s d → saveData s d = d) := by
  refine ⟨?_, ?_, ?_, ?_⟩
  · intro env s d
    rfl
  · intro env s d ids hsave hne hmatch
    have hidx : deleteIndices env s ids = [] := by
      unfold deleteIndices
      rw [List.map_eq_nil_iff]
      rw [List.filter_eq_nil_iff]
      rw [List.forall_mem_enum]
      intro i h
      simp only [Bool.not_eq_true]
      exact hmatch i (s.documents[i]) (List.getElem?_eq_getElem h)
    have hstore : deleteResultStore env s ids = s := by
      unfold deleteResultStore
      rw [hidx]
      rfl
    unfold Store.delete
    rw [if_neg (by simpa using hne), if_pos hsave, hstore]
  · intro env s d ids b s' d' heq hb
    by_cases hempty : ids.isEmpty = true
    · unfold Store.delete at heq
      rw [if_pos hempty] at heq
      have h1 : true = b := congrArg (fun p => p.1) heq
      rw [hb] at h1
      cases h1
    · unfold Store.delete at heq
      rw [if_neg hempty] at heq
      cases hsave : env.saveOk with
      | false => rfl
      | true =>
        rw [if_pos hsave] at heq
        have h1 : true = b := congrArg (fun p => p.1) heq
        rw [hb] at h1
        cases h1
  · intro s d hsync
    obtain ⟨h1, h2, h3⟩ := hsync
    rcases d with ⟨vf, mf, df⟩
    simp only at h1 h2 h3
    subst h1
    subst h2
    by_cases hv : s.vectors = []
    · simp [saveData, hv]
    · simp [saveData, List.isEmpty_eq_false.mpr hv, h3 hv]

/-- Witness for C8: a synced concrete snapshot is a `_save_data` fixed
point, so the rewrite after a no-match delete is byte-identical. -/
theorem delete_noop_and_failure_spec_witness :
    saveData exStore exDisk = exDisk :=
  delete_noop_and_failure_spec.2.2.2 exStore exDisk (by decide)

/-! ### C7: `add_documents` is all-or-nothing -/

/-- C7: an empty batch returns no ids and touches nothing; a failed batch
embedding propagates the error with the in-memory arrays and the snapshot
untouched; a successful embedding (one vector per text, the embedding
port's contract) appends everything, persists, and returns exactly one
positional id per input document, in input order. -/
theorem add_documents_all_or_nothing :
    (∀ (env : Env) (s : Store) (d : Disk),
      add_documents env s d [] = (Except.ok [], s, d)) ∧
    (∀ (env : Env) (s : Store) (d : Disk) (docs : List Document) e,
      docs ≠ [] →
      env.embedDocuments (docs.map (fun doc => doc.page_content)) =
        Except.error e →
      add_documents env s d docs = (Except.error e, s, d)) ∧
    (∀ (env : Env) (s : Store) (d : Disk) (docs : List Document) es,
      docs ≠ [] →
      env.embedDocuments (docs.map (fun doc => doc.page_content)) =
        Except.ok es →
      es.length = docs.length →
      env.saveOk = true →
      add_documents env s d docs =
        (Except.ok (addIds env s docs es), addResultStore s docs es,
         saveData (addResultStore s docs es) d) ∧
      (addIds env s docs es).length = docs.length ∧
      (∀ j (hj : j < docs.length),
        (addIds env s docs es)[j]? =
          some (mkDocId (s.documents.length + j)
            (env.pyhash (docs.get ⟨j, hj⟩).page_content))) ∧
      (addResultStore s docs es).documents = s.documents ++ docs) := by
  refine ⟨?_, ?_, ?_⟩
  · intro env s d
    rfl
  · intro env s d docs e hne hembed
    unfold add_documents
    rw [if_neg (by simpa using hne), hembed]
  · intro env s d docs es hne hembed hlen hsave
    have hziplen : (docs.zip es).length = docs.length := by
      rw [List.length_zip, hlen, Nat.min_self]
    refine ⟨?_, ?_, ?_, ?_⟩
    · unfold add_documents
      rw [if_neg (by simpa using hne), hembed]
      dsimp only
      rw [if_pos hsave]
    · unfold addIds
      rw [List.length_map, List.enum_length, hziplen]
    · intro j hj
      have hj' : j < (docs.zip es).length := by omega
      have hj2 : j <
          ((docs.zip es).enum.map (fun p =>
            mkDocId (s.documents.length + p.1)
              (env.pyhash p.2.1.page_content))).length := by
        rw [List.length_map, List.enum_length]
        omega
      unfold addIds
      rw [List.getElem?_eq_getElem hj2]
      congr 1
      rw [List.getElem_map, List.getElem_enum, List.getElem_zip]
      rfl
    · unfold addResultStore
      simp only
      rw [List.map_fst_zip docs es (by omega)]

/-- Witness for C7 at the one-document batch over an empty store. -/
theorem add_documents_all_or_nothing_witness :
    (addIds exEnv ⟨[], [], [], "dotproduct"⟩ [exDoc] [[1]]).length = 1 :=
  (add_documents_all_or_nothing.2.2 exEnv ⟨[], [], [], "dotproduct"⟩
    ⟨none, none, none⟩ [exDoc] [[1]] (by decide) rfl rfl rfl).2.1

/-! ### C10: the parallel arrays stay aligned -/

/-- Erasing the same index list from two lists of equal length keeps the
lengths equal. -/
theorem eraseIdxs_length_eq {α β : Type} (idxs : List Nat) (a : List α)
    (b : List β) (h : a.length = b.length) :
    (eraseIdxs a idxs).length = (eraseIdxs b idxs).length := by
  induction idxs generalizing a b with
  | nil => exact h
  | cons i idxs ih =>
    apply ih
    rw [List.length_eraseIdx, List.length_eraseIdx, h]

/-- C10: starting from aligned arrays, both `add_documents` and `delete`
leave the three parallel arrays aligned, whatever the environment does
(embedding failure, write failure, no-ops included). -/
theorem parallel_arrays_invariant (env : Env) (s : Store) (d : Disk)
    (docs : List Document) (ids : List String) (hwf : WF s) :
    WF (add_documents env s d docs).2.1 ∧
    WF (Store.delete env s d ids).2.1 := by
  obtain ⟨hw1, hw2⟩ := hwf
  constructor
  · unfold add_documents
    by_cases hd : docs.isEmpty = true
    · rw [if_pos hd]
      exact ⟨hw1, hw2⟩
    · rw [if_neg hd]
      cases env.embedDocuments (docs.map (fun doc => doc.page_content)) with
      | error e => exact ⟨hw1, hw2⟩
      | ok es =>
        dsimp only
        have hres : WF (addResultStore s docs es) := by
          unfold WF addResultStore
          simp only [List.length_append, List.length_map]
          omega
        cases hsave : env.saveOk with
        | true => rw [if_pos rfl]; exact hres
        | false => rw [if_neg (by decide)]; exact hres
  · unfold Store.delete
    by_cases hd : ids.isEmpty = true
    · rw [if_pos hd]
      exact ⟨hw1, hw2⟩
    · rw [if_neg hd]
      have hres : WF (deleteResultStore env s ids) := by
        unfold WF deleteResultStore
        simp only
        exact ⟨eraseIdxs_length_eq _ _ _ hw1, eraseIdxs_length_eq _ _ _ hw2⟩
      cases hsave : env.saveOk with
      | true => rw [if_pos rfl]; exact hres
      | false => rw [if_neg (by decide)]; exact hres

/-- Witness for C10 at the concrete one-chunk store. -/
theorem parallel_arrays_invariant_witness :
    WF (add_documents exEnv exStore exDisk [exDoc]).2.1 ∧
    WF (Store.delete exEnv exStore exDisk ["doc_0_0"]).2.1 :=
  parallel_arrays_invariant exEnv exStore exDisk [exDoc] ["doc_0_0"]
    (by decide)

/-! ### C6: what `search` does to the stored state -/

/-- Updating the same dict key twice keeps only the last value. -/
theorem dictSet_dictSet (md : Meta) (k : String) (v1 v2 : MVal) :
    dictSet (dictSet md k v1) k v2 = dictSet md k v2 := by
  unfold dictSet
  by_cases h : md.any (fun p => p.1 = k) = true
  · rw [if_pos h]
    have h2 : (md.map (fun p => if p.1 = k then (k, v1) else p)).any
        (fun p => p.1 = k) = true := by
      rw [List.any_map]
      obtain ⟨p, hp, hpk⟩ := List.any_eq_true.mp h
      exact List.any_eq_true.mpr ⟨p, hp, by
        simp only [Function.comp_apply]
        simp only [decide_eq_true_eq] at hpk
        simp [hpk]⟩
    rw [if_pos h2, if_pos h, List.map_map]
    apply List.map_congr_left
    intro p hp
    by_cases hpk : p.1 = k <;> simp [Function.comp_apply, hpk]
  · rw [if_neg h]
    have h2 : (md ++ [(k, v1)]).any (fun p => p.1 = k) = true :=
      List.any_eq_true.mpr ⟨(k, v1), List.mem_append_right _ (by simp),
        by simp⟩
    rw [if_pos h2, if_neg h, List.map_append]
    have h3 : ∀ p ∈ md, (p.1 : String) ≠ k := by
      intro p hp hpk
      exact absurd (List.any_eq_true.mpr ⟨p, hp, by simp [hpk]⟩) h
    have h4 : md.map (fun p => if p.1 = k then (k, v2) else p) = md := by
      rw [List.map_congr_left (g := id) (fun p hp => by
        simp [h3 p hp])]
      exact List.map_id md
    rw [h4]
    simp

/-- Attaching a score twice keeps only the last one (the reserved key is
simply overwritten). -/
theorem setScore_setScore (doc : Document) (a b : ℚ) :
    setScore (setScore doc a) b = setScore doc b := by
  unfold setScore
  simp [dictSet_dictSet]

/-- `buildResults` keeps the length of the documents array and produces
one result per ranked entry. -/
theorem buildResults_ok_length (ranked : List (Nat × ℚ)) :
    ∀ (docs res docs' : List Document),
      buildResults ranked docs = Except.ok (res, docs') →
      docs'.length = docs.length ∧ res.length = ranked.length := by
  induction ranked with
  | nil =>
    intro docs res docs' heq
    unfold buildResults at heq
    injection heq with h
    injection h with h1 h2
    subst h1
    subst h2
    exact ⟨rfl, rfl⟩
  | cons p rest ih =>
    intro docs res docs' heq
    unfold buildResults at heq
    cases hget : docs[p.1]? with
    | none => rw [hget] at heq; cases heq
    | some doc =>
      rw [hget] at heq
      dsimp only at heq
      cases hrec : buildResults rest (docs.set p.1 (setScore doc p.2)) with
      | error e => rw [hrec] at heq; cases heq
      | ok pr =>
        obtain ⟨res0, docs0⟩ := pr
        rw [hrec] at heq
        injection heq with h
        injection h with h1 h2
        subst h1
        subst h2
        obtain ⟨hl, hr⟩ := ih _ _ _ hrec
        rw [List.length_set] at hl
        exact ⟨hl, by simp [hr]⟩

/-- After `buildResults`, every slot of the documents array is either
untouched or holds the old document with a similarity score written into
its metadata. -/
theorem buildResults_ok_getElem (ranked : List (Nat × ℚ)) :
    ∀ (docs res docs' : List Document),
      buildResults ranked docs = Except.ok (res, docs') →
      ∀ i : Nat, docs'[i]? = docs[i]? ∨
        ∃ q doc, docs[i]? = some doc ∧
          docs'[i]? = some (setScore doc q) := by
  induction ranked with
  | nil =>
    intro docs res docs' heq i
    unfold buildResults at heq
    injection heq with h
    injection h with h1 h2
    subst h2
    exact Or.inl rfl
  | cons p rest ih =>
    intro docs res docs' heq i
    unfold buildResults at heq
    cases hget : docs[p.1]? with
    | none => rw [hget] at heq; cases heq
    | some doc =>
      rw [hget] at heq
      dsimp only at heq
      cases hrec : buildResults rest (docs.set p.1 (setScore doc p.2)) with
      | error e => rw [hrec] at heq; cases heq
      | ok pr =>
        obtain ⟨res0, docs0⟩ := pr
        rw [hrec] at heq
        injection heq with h
        injection h with h1 h2
        subst h1
        subst h2
        have hlt : p.1 < docs.length :=
          (List.getElem?_eq_some_iff.mp hget).1
        have hix := ih _ _ _ hrec i
        by_cases hip : i = p.1
        · subst hip
          rw [List.getElem?_set_self hlt] at hix
          rcases hix with hA | ⟨q, d0, hd0, hd0'⟩
          · exact Or.inr ⟨p.2, doc, hget, hA⟩
          · injection hd0 with hd0
            subst hd0
            rw [setScore_setScore] at hd0'
            exact Or.inr ⟨q, doc, hget, hd0'⟩
        · rw [List.getElem?_set_ne (fun hn => hip hn.symm)] at hix
          exact hix

/-- Every result of `buildResults` is a stored document with a score
written into its metadata (a document already carrying a score keeps only
the fresh one). -/
theorem buildResults_ok_mem (ranked : List (Nat × ℚ)) :
    ∀ (docs res docs' : List Document),
      buildResults ranked docs = Except.ok (res, docs') →
      ∀ r ∈ res, ∃ doc ∈ docs, ∃ q, r = setScore doc q := by
  induction ranked with
  | nil =>
    intro docs res docs' heq r hr
    unfold buildResults at heq
    injection heq with h
    injection h with h1 h2
    subst h1
    cases hr
  | cons p rest ih =>
    intro docs res docs' heq r hr
    unfold buildResults at heq
    cases hget : docs[p.1]? with
    | none => rw [hget] at heq; cases heq
    | some doc =>
      rw [hget] at heq
      dsimp only at heq
      cases hrec : buildResults rest (docs.set p.1 (setScore doc p.2)) with
      | error e => rw [hrec] at heq; cases heq
      | ok pr =>
        obtain ⟨res0, docs0⟩ := pr
        rw [hrec] at heq
        injection heq with h
        injection h with h1 h2
        subst h1
        subst h2
        have hdocmem : doc ∈ docs := List.getElem?_mem hget
        rcases List.mem_cons.mp hr with hr0 | hr0
        · exact ⟨doc, hdocmem, p.2, hr0⟩
        · obtain ⟨d0, hd0mem, q, hq⟩ := ih _ _ _ hrec r hr0
          rcases List.mem_or_eq_of_mem_set hd0mem with hmem | heq0
          · exact ⟨d0, hmem, q, hq⟩
          · subst heq0
            rw [setScore_setScore] at hq
            exact ⟨doc, hdocmem, q, hq⟩

/-- C6 (amended): a successful `search` leaves the vectors, the metadata
list, the metric and the number of stored documents unchanged, but it
**does** mutate stored chunks: each returned document is the stored
`Document` object with `similarity_score` written into its metadata, and
the store's documents array reflects that in-place mutation. -/
theorem search_frame_spec (env : Env) (s : Store) (q : String) (k : Nat)
    (f : Option Meta) (res : List Document) (s' : Store)
    (hok : search env s q k f = Except.ok (res, s')) :
    s'.vectors = s.vectors ∧ s'.metadata_list = s.metadata_list ∧
    s'.distance_metric = s.distance_metric ∧
    s'.documents.length = s.documents.length ∧
    (∀ i : Nat, s'.documents[i]? = s.documents[i]? ∨
      ∃ q0 doc, s.documents[i]? = some doc ∧
        s'.documents[i]? = some (setScore doc q0)) ∧
    (∀ r ∈ res, ∃ doc ∈ s.documents, ∃ q0, r = setScore doc q0) := by
  unfold search at hok
  by_cases hd : s.documents.isEmpty = true
  · rw [if_pos hd] at hok
    injection hok with h
    injection h with h1 h2
    subst h1
    subst h2
    exact ⟨rfl, rfl, rfl, rfl, fun i => Or.inl rfl, fun r hr => absurd hr
      (by simp)⟩
  · rw [if_neg hd] at hok
    cases hq : env.embedQuery q with
    | error e => rw [hq] at hok; cases hok
    | ok qv =>
      rw [hq] at hok
      dsimp only at hok
      cases hsims : computeSims env s.distance_metric qv s.vectors
          s.metadata_list f with
      | error e => rw [hsims] at hok; cases hok
      | ok sims =>
        rw [hsims] at hok
        dsimp only at hok
        cases hbr : buildResults ((sortDesc sims).take k) s.documents with
        | error e => rw [hbr] at hok; cases hok
        | ok pr =>
          obtain ⟨res0, docs0⟩ := pr
          rw [hbr] at hok
          injection hok with h
          injection h with h1 h2
          subst h1
          subst h2
          exact ⟨rfl, rfl, rfl, (buildResults_ok_length _ _ _ _ hbr).1,
            buildResults_ok_getElem _ _ _ _ hbr,
            buildResults_ok_mem _ _ _ _ hbr⟩

/-- Witness for C6: the frame part applied to a concrete successful
search over the one-chunk store. -/
theorem search_frame_spec_witness :
    (⟨[[1]], [[]], [⟨"hello", [("similarity_score", MVal.n 0)]⟩],
      "dotproduct"⟩ : Store).vectors = exStore.vectors :=
  (search_frame_spec exEnv exStore "q" 1 none
    [⟨"hello", [("similarity_score", MVal.n 0)]⟩]
    ⟨[[1]], [[]], [⟨"hello", [("similarity_score", MVal.n 0)]⟩],
     "dotproduct"⟩ rfl).1

/-- C6 counterexample: after a search over the one-chunk store, the
stored documents array itself carries the `similarity_score` key — the
stored chunk was mutated in place, so the stored state is not the same as
before the call. -/
theorem search_mutates_store_counterexample :
    search exEnv exStore "q" 1 none =
      Except.ok ([⟨"hello", [("similarity_score", MVal.n 0)]⟩],
        ⟨[[1]], [[]], [⟨"hello", [("similarity_score", MVal.n 0)]⟩],
         "dotproduct"⟩) ∧
    (⟨[[1]], [[]], [⟨"hello", [("similarity_score", MVal.n 0)]⟩],
      "dotproduct"⟩ : Store).documents ≠ exStore.documents := by
  decide

/-! ### C1: `search` ranking -/

/-- The order `search`'s ranked list satisfies: strictly larger score
first, ties broken by the smaller (earlier) chunk index. -/
def QRel (a b : Nat × ℚ) : Prop :=
  b.2 < a.2 ∨ (a.2 = b.2 ∧ a.1 < b.1)

/-- The score `search` attached to a result document. -/
def scoreOf (doc : Document) : ℚ :=
  match mget doc.metadata "similarity_score" with
  | MVal.n q => q
  | _ => 0

theorem insertDesc_perm (x : Nat × ℚ) (l : List (Nat × ℚ)) :
    List.Perm (insertDesc x l) (x :: l) := by
  induction l with
  | nil => exact List.Perm.refl _
  | cons y ys ih =>
    unfold insertDesc
    by_cases h : x.2 < y.2
    · rw [if_pos h]
      exact (ih.cons y).trans (List.Perm.swap x y ys)
    · rw [if_neg h]

theorem mem_insertDesc {x y : Nat × ℚ} {l : List (Nat × ℚ)} :
    y ∈ insertDesc x l ↔ y = x ∨ y ∈ l := by
  rw [(insertDesc_perm x l).mem_iff, List.mem_cons]

theorem insertDesc_pairwise {x : Nat × ℚ} {l : List (Nat × ℚ)}
    (hp : List.Pairwise QRel l) (hlt : ∀ y ∈ l, x.1 < y.1) :
    List.Pairwise QRel (insertDesc x l) := by
  induction l with
  | nil => exact List.pairwise_singleton QRel x
  | cons y ys ih =>
    rw [List.pairwise_cons] at hp
    obtain ⟨hy, hys⟩ := hp
    unfold insertDesc
    by_cases h : x.2 < y.2
    · rw [if_pos h]
      rw [List.pairwise_cons]
      refine ⟨?_, ih hys (fun z hz => hlt z (List.mem_cons_of_mem y hz))⟩
      intro z hz
      rcases mem_insertDesc.mp hz with rfl | hz'
      · exact Or.inl h
      · exact hy z hz'
    · rw [if_neg h]
      rw [List.pairwise_cons]
      constructor
      · intro z hz
        rcases List.mem_cons.mp hz with rfl | hz'
        · rcases lt_or_eq_of_le (le_of_not_lt h) with h2 | h2
          · exact Or.inl h2
          · exact Or.inr ⟨h2.symm, hlt z (List.mem_cons_self z ys)⟩
        · have hyz := hy z hz'
          have hzle : z.2 ≤ x.2 := by
            rcases hyz with h3 | h3
            · exact le_trans (le_of_lt h3) (le_of_not_lt h)
            · exact h3.1 ▸ le_of_not_lt h
          rcases lt_or_eq_of_le hzle with h4 | h4
          · exact Or.inl h4
          · exact Or.inr ⟨h4.symm, hlt z (List.mem_cons_of_mem y hz')⟩
      · exact List.pairwise_cons.mpr ⟨hy, hys⟩

theorem sortDesc_perm (l : List (Nat × ℚ)) : List.Perm (sortDesc l) l := by
  induction l with
  | nil => exact List.Perm.refl _
  | cons x xs ih =>
    unfold sortDesc
    exact (insertDesc_perm x (sortDesc xs)).trans (ih.cons x)

/-- A list with strictly increasing indices sorts into the stable
descending order `QRel`: larger scores first, ties in index order. -/
theorem sortDesc_pairwise {l : List (Nat × ℚ)}
    (hp : List.Pairwise (fun a b => a.1 < b.1) l) :
    List.Pairwise QRel (sortDesc l) := by
  induction l with
  | nil => exact List.Pairwise.nil
  | cons x xs ih =>
    rw [List.pairwise_cons] at hp
    unfold sortDesc
    exact insertDesc_pairwise (ih hp.2)
      (fun y hy => hp.1 y ((sortDesc_perm xs).subset hy))

/-- The similarity loop succeeds whenever every index it visits is within
the metadata array (always true for aligned arrays). -/
theorem simsLoop_ok (env : Env) (metric : String) (qv : Vec)
    (mds : List Meta) (filter : Option Meta) :
    ∀ L : List (Nat × Vec), (∀ p ∈ L, p.1 < mds.length) →
      ∃ sims, simsLoop env metric qv mds filter L = Except.ok sims := by
  intro L
  induction L with
  | nil => exact fun _ => ⟨[], rfl⟩
  | cons p rest ih =>
    intro hb
    obtain ⟨sims0, hrec⟩ := ih (fun z hz => hb z (List.mem_cons_of_mem p hz))
    have hp := hb p (List.mem_cons_self p rest)
    unfold simsLoop
    by_cases hf : filterActive filter = true
    · rw [if_pos hf, List.getElem?_eq_getElem hp]
      dsimp only
      by_cases hmf : matchFilter (mds[p.1]) (filter.getD []) = true
      · rw [if_pos hmf, hrec]
        exact ⟨_, rfl⟩
      · rw [if_neg hmf]
        exact ⟨sims0, hrec⟩
    · rw [if_neg hf, hrec]
      exact ⟨_, rfl⟩

/-- The indices of the similarity list form a sublist of the visited
indices, in visit order. -/
theorem simsLoop_fst_sublist (env : Env) (metric : String) (qv : Vec)
    (mds : List Meta) (filter : Option Meta) :
    ∀ (L : List (Nat × Vec)) (sims : List (Nat × ℚ)),
      simsLoop env metric qv mds filter L = Except.ok sims →
      List.Sublist (sims.map Prod.fst) (L.map Prod.fst) := by
  intro L
  induction L with
  | nil =>
    intro sims heq
    unfold simsLoop at heq
    injection heq with h
    subst h
    exact List.nil_sublist _
  | cons p rest ih =>
    intro sims heq
    unfold simsLoop at heq
    by_cases hf : filterActive filter = true
    · rw [if_pos hf] at heq
      cases hm : mds[p.1]? with
      | none => rw [hm] at heq; cases heq
      | some md =>
        rw [hm] at heq
        dsimp only at heq
        by_cases hmf : matchFilter md (filter.getD []) = true
        · rw [if_pos hmf] at heq
          cases hrec : simsLoop env metric qv mds filter rest with
          | error e => rw [hrec] at heq; cases heq
          | ok sims0 =>
            rw [hrec] at heq
            injection heq with h
            subst h
            exact (ih sims0 hrec).cons₂ p.1
        · rw [if_neg hmf] at heq
          exact (ih sims heq).cons p.1
    · rw [if_neg hf] at heq
      cases hrec : simsLoop env metric qv mds filter rest with
      | error e => rw [hrec] at heq; cases heq
      | ok sims0 =>
        rw [hrec] at heq
        injection heq with h
        subst h
        exact (ih sims0 hrec).cons₂ p.1

/-- Over `enumerate(vectors)` the similarity indices are a sublist of
`range len(vectors)`. -/
theorem computeSims_fst_sublist (env : Env) (metric : String) (qv : Vec)
    (vectors : List Vec) (mds : List Meta) (filter : Option Meta)
    (sims : List (Nat × ℚ))
    (heq : computeSims env metric qv vectors mds filter = Except.ok sims) :
    List.Sublist (sims.map Prod.fst) (List.range vectors.length) := by
  have h := simsLoop_fst_sublist env metric qv mds filter vectors.enum sims heq
  rw [List.enum_eq_enumFrom, List.enumFrom_map_fst, ← List.range_eq_range'] at h
  exact h

/-- With distinct target indices, the result list of `buildResults` reads
each document from the original array. -/
theorem buildResults_res_eq (ranked : List (Nat × ℚ)) :
    ∀ (docs res docs' : List Document),
      (ranked.map Prod.fst).Nodup →
      buildResults ranked docs = Except.ok (res, docs') →
      res = ranked.map (fun p => setScore (docs.getD p.1 default) p.2) := by
  induction ranked with
  | nil =>
    intro docs res docs' hnd heq
    unfold buildResults at heq
    injection heq with h
    injection h with h1 h2
    subst h1
    rfl
  | cons p rest ih =>
    intro docs res docs' hnd heq
    unfold buildResults at heq
    cases hget : docs[p.1]? with
    | none => rw [hget] at heq; cases heq
    | some doc =>
      rw [hget] at heq
      dsimp only at heq
      cases hrec : buildResults rest (docs.set p.1 (setScore doc p.2)) with
      | error e => rw [hrec] at heq; cases heq
      | ok pr =>
        obtain ⟨res0, docs0⟩ := pr
        rw [hrec] at heq
        injection heq with h
        injection h with h1 h2
        subst h1
        rw [List.map_cons, List.nodup_cons] at hnd
        have hres0 := ih (docs.set p.1 (setScore doc p.2)) res0 docs0
          hnd.2 hrec
        rw [List.map_cons]
        congr 1
        · rw [List.getD_eq_getElem?_getD, hget]
          rfl
        · rw [hres0]
          apply List.map_congr_left
          intro z hz
          have hzne : z.1 ≠ p.1 := by
            intro hc
            exact hnd.1 (hc ▸ List.mem_map_of_mem Prod.fst hz)
          rw [List.getD_eq_getElem?_getD, List.getD_eq_getElem?_getD,
            List.getElem?_set_ne (fun hc => hzne hc.symm)]

/-- Looking up the key just written by `dictSet` over the rebuilt dict. -/
theorem find?_key_map (md : Meta) (k : String) (v : MVal)
    (h : md.any (fun p => p.1 = k) = true) :
    (md.map (fun p => if p.1 = k then (k, v) else p)).find?
      (fun p => p.1 = k) = some (k, v) := by
  induction md with
  | nil => simp at h
  | cons p ps ih =>
    by_cases hp : p.1 = k
    · simp [List.find?_cons, hp]
    · have hps : ps.any (fun p => p.1 = k) = true := by
        simpa [hp] using h
      simp [List.find?_cons, hp, ih hps]

/-- `dict.get(k)` on `{**md, k: v}` returns `v`. -/
theorem mget_dictSet (md : Meta) (k : String) (v : MVal) :
    mget (dictSet md k v) k = v := by
  unfold dictSet mget
  by_cases h : md.any (fun p => p.1 = k) = true
  · rw [if_pos h, find?_key_map md k v h]
  · rw [if_neg h]
    have hnone : md.find? (fun p => decide (p.1 = k)) = none := by
      rw [List.find?_eq_none]
      intro x hx hpx
      exact h (List.any_eq_true.mpr ⟨x, hx, hpx⟩)
    rw [List.find?_append, hnone]
    simp [List.find?_cons]

/-- Reading back the attached score. -/
theorem scoreOf_setScore (doc : Document) (q : ℚ) :
    scoreOf (setScore doc q) = q := by
  unfold scoreOf setScore
  simp [mget_dictSet]

/-- `buildResults` succeeds when every ranked index is in bounds. -/
theorem buildResults_ok (ranked : List (Nat × ℚ)) :
    ∀ docs : List Document, (∀ p ∈ ranked, p.1 < docs.length) →
      ∃ res docs', buildResults ranked docs = Except.ok (res, docs') := by
  induction ranked with
  | nil => exact fun docs _ => ⟨[], docs, rfl⟩
  | cons p rest ih =>
    intro docs hb
    have hp : p.1 < docs.length := hb p (List.mem_cons_self p rest)
    obtain ⟨res0, docs1, hrec⟩ := ih (docs.set p.1 (setScore docs[p.1] p.2))
      (fun z hz => by
        rw [List.length_set]
        exact hb z (List.mem_cons_of_mem p hz))
    unfold buildResults
    rw [List.getElem?_eq_getElem hp]
    dsimp only
    rw [hrec]
    exact ⟨_, _, rfl⟩

/-- C1: over an empty index `search` returns the empty list (not an
error) and leaves the state untouched; over any index, a successful query
embedding and similarity pass yield a successful search returning at most
`top_k` results, namely the stably-descending-sorted similarity list cut
to `top_k` and mapped onto the stored documents with the score attached;
the ranked list is ordered by strictly descending score with ties in
insertion order, and the returned scores are non-increasing. -/
theorem search_topk_sorted_stable (env : Env) (s : Store) (q : String)
    (k : Nat) (f : Option Meta) :
    (s.documents = [] → search env s q k f = Except.ok ([], s)) ∧
    (∀ qv sims, WF s →
      env.embedQuery q = Except.ok qv →
      computeSims env s.distance_metric qv s.vectors s.metadata_list f =
        Except.ok sims →
      ∃ res s', search env s q k f = Except.ok (res, s') ∧
        res.length ≤ k ∧
        res = ((sortDesc sims).take k).map
          (fun p => setScore (s.documents.getD p.1 default) p.2) ∧
        List.Pairwise QRel ((sortDesc sims).take k) ∧
        List.Pairwise (fun a b => scoreOf b ≤ scoreOf a) res) := by
  constructor
  · intro hempty
    unfold search
    rw [if_pos (List.isEmpty_iff.mpr hempty)]
  · intro qv sims hwf hq hsims
    have hsub := computeSims_fst_sublist env s.distance_metric qv
      s.vectors s.metadata_list f sims hsims
    have hnodup : (sims.map Prod.fst).Nodup :=
      hsub.nodup (List.nodup_range _)
    have hfstlt : List.Pairwise (fun a b => a.1 < b.1) sims :=
      List.pairwise_map.mp ((List.pairwise_lt_range _).sublist hsub)
    have hq_ranked : List.Pairwise QRel (sortDesc sims) :=
      sortDesc_pairwise hfstlt
    have htake_q : List.Pairwise QRel ((sortDesc sims).take k) :=
      List.Pairwise.sublist (List.take_sublist k _) hq_ranked
    have hscores : ∀ res0, res0 = ((sortDesc sims).take k).map
        (fun p => setScore (s.documents.getD p.1 default) p.2) →
        List.Pairwise (fun a b => scoreOf b ≤ scoreOf a) res0 := by
      intro res0 hres0
      rw [hres0, List.pairwise_map]
      apply htake_q.imp
      intro a b hab
      rw [scoreOf_setScore, scoreOf_setScore]
      rcases hab with h | h
      · exact le_of_lt h
      · exact le_of_eq h.1.symm
    by_cases hde : s.documents.isEmpty = true
    · have hdocs : s.documents = [] := List.isEmpty_iff.mp hde
      have hvec : s.vectors = [] := by
        apply List.length_eq_zero.mp
        rw [hwf.2, hdocs]
        rfl
      have hsims0 : sims = [] := by
        unfold computeSims at hsims
        rw [hvec] at hsims
        injection hsims with h
        exact h.symm
      refine ⟨[], s, ?_, Nat.zero_le k, ?_, ?_, List.Pairwise.nil⟩
      · unfold search
        rw [if_pos hde]
      · rw [hsims0, show sortDesc [] = [] from rfl, List.take_nil]
        rfl
      · rw [hsims0, show sortDesc [] = [] from rfl, List.take_nil]
        exact List.Pairwise.nil
    · have hbounds : ∀ p ∈ (sortDesc sims).take k,
          p.1 < s.documents.length := by
        intro p hp
        have hmem : p ∈ sims :=
          (sortDesc_perm sims).subset ((List.take_sublist k _).subset hp)
        have hm2 : p.1 ∈ sims.map Prod.fst :=
          List.mem_map_of_mem Prod.fst hmem
        have hm3 := hsub.subset hm2
        rw [List.mem_range] at hm3
        have := hwf.2
        omega
      have hnodup_take :
          (((sortDesc sims).take k).map Prod.fst).Nodup := by
        have hperm : List.Perm ((sortDesc sims).map Prod.fst)
            (sims.map Prod.fst) := (sortDesc_perm sims).map Prod.fst
        have hnd2 : ((sortDesc sims).map Prod.fst).Nodup :=
          hperm.nodup_iff.mpr hnodup
        exact (List.Sublist.map Prod.fst (List.take_sublist k _)).nodup hnd2
      obtain ⟨res0, docs0, hbr⟩ :=
        buildResults_ok ((sortDesc sims).take k) s.documents hbounds
      have hres_eq := buildResults_res_eq _ s.documents res0 docs0
        hnodup_take hbr
      refine ⟨res0, { s with documents := docs0 }, ?_, ?_, hres_eq,
        htake_q, hscores res0 hres_eq⟩
      · unfold search
        rw [if_neg hde, hq]
        dsimp only
        rw [hsims]
        dsimp only
        rw [hbr]
      · have hlen := (buildResults_ok_length _ _ _ _ hbr).2
        rw [hlen]
        exact List.length_take_le k _

/-- Witness for C1: the non-empty clause at the concrete one-chunk store
(the single chunk scores `0` against the empty query vector). -/
theorem search_topk_sorted_stable_witness :
    ([(⟨"hello", [("similarity_score", MVal.n 0)]⟩ : Document)]).length ≤ 5 := by
  have h := (search_topk_sorted_stable exEnv exStore "q" 5 none).2
    [] [(0, 0)] (by decide) rfl (by decide)
  obtain ⟨res, s', hok, hlen, hres, -, -⟩ := h
  have hres5 : res = [⟨"hello", [("similarity_score", MVal.n 0)]⟩] := by
    rw [hres]
    decide
  rw [← hres5]
  exact hlen

/-! ### C9: add then delete of the returned ids -/

theorem eraseIdxs_cons (xs : List α) (i : Nat) (idxs : List Nat) :
    eraseIdxs xs (i :: idxs) = eraseIdxs (xs.eraseIdx i) idxs := rfl

theorem eraseIdxs_append (xs : List α) (a b : List Nat) :
    eraseIdxs xs (a ++ b) = eraseIdxs (eraseIdxs xs a) b :=
  List.foldl_append ..

/-- Erasing any indices yields a subsequence. -/
theorem eraseIdxs_sublist (idxs : List Nat) :
    ∀ xs : List α, List.Sublist (eraseIdxs xs idxs) xs := by
  induction idxs with
  | nil => exact fun xs => List.Sublist.refl xs
  | cons i idxs ih =>
    intro xs
    rw [eraseIdxs_cons]
    exact (ih (xs.eraseIdx i)).trans (List.eraseIdx_sublist xs i)

/-- Erasing, from back to front, every position of the appended block `B`
removes exactly `B`. -/
theorem eraseIdxs_reverse_range' (A : List α) :
    ∀ (n : Nat) (B : List α), B.length = n →
      eraseIdxs (A ++ B) (List.range' A.length n).reverse = A := by
  intro n
  induction n with
  | zero =>
    intro B hB
    rw [List.length_eq_zero.mp hB]
    simp [eraseIdxs]
  | succ n ih =>
    intro B hB
    rw [List.range'_concat, List.reverse_append, List.reverse_singleton]
    rw [List.singleton_append, eraseIdxs_cons]
    have h1 : (A ++ B).eraseIdx (A.length + 1 * n) = A ++ B.take n := by
      rw [List.eraseIdx_append_of_length_le (by omega)]
      congr 1
      rw [show A.length + 1 * n - A.length = n by omega]
      rw [List.eraseIdx_eq_take_drop_succ]
      rw [List.drop_eq_nil_of_le (by omega), List.append_nil]
    rw [h1]
    exact ih (B.take n) (by rw [List.length_take]; omega)

theorem enumFrom_append_eq (as bs : List α) (n : Nat) :
    (as ++ bs).enumFrom n = as.enumFrom n ++ bs.enumFrom (n + as.length) := by
  induction as generalizing n with
  | nil => simp [List.enumFrom]
  | cons a as ih =>
    show (n, a) :: List.enumFrom (n + 1) (as ++ bs) =
      ((n, a) :: List.enumFrom (n + 1) as) ++
        List.enumFrom (n + (as.length + 1)) bs
    rw [List.cons_append, ih (n + 1),
      show n + 1 + as.length = n + (as.length + 1) from by omega]

theorem enum_append_eq (as bs : List α) :
    (as ++ bs).enum = as.enum ++ bs.enumFrom as.length := by
  rw [List.enum_eq_enumFrom, List.enum_eq_enumFrom, enumFrom_append_eq,
    Nat.zero_add]

/-- The documents after the append loop. -/
theorem addResultStore_documents (s : Store) (docs : List Document)
    (es : List Vec) (hlen : es.length = docs.length) :
    (addResultStore s docs es).documents = s.documents ++ docs := by
  unfold addResultStore
  simp only
  rw [List.map_fst_zip docs es (by omega)]

/-- The j-th id assigned by `add_documents`. -/
theorem addIds_getElem (env : Env) (s : Store) (docs : List Document)
    (es : List Vec) (hlen : es.length = docs.length) (j : Nat)
    (hj : j < docs.length) :
    (addIds env s docs es)[j]? =
      some (mkDocId (s.documents.length + j)
        (env.pyhash (docs.getD j default).page_content)) := by
  have hj' : j < (docs.zip es).length := by
    rw [List.length_zip]
    omega
  have hj2 : j <
      ((docs.zip es).enum.map (fun p =>
        mkDocId (s.documents.length + p.1)
          (env.pyhash p.2.1.page_content))).length := by
    rw [List.length_map, List.enum_length]
    omega
  unfold addIds
  rw [List.getElem?_eq_getElem hj2]
  congr 1
  rw [List.getElem_map, List.getElem_enum, List.getElem_zip]
  rw [List.getD_eq_getElem?_getD, List.getElem?_eq_getElem hj]
  rfl

/-- Every result of a successful `search` originates from a stored
document (with a score attached). -/
theorem search_results_mem (env : Env) (s : Store) (q : String) (k : Nat)
    (f : Option Meta) (res : List Document) (s' : Store)
    (hok : search env s q k f = Except.ok (res, s')) :
    ∀ r ∈ res, ∃ doc ∈ s.documents, ∃ q0, r = setScore doc q0 := by
  unfold search at hok
  by_cases hd : s.documents.isEmpty = true
  · rw [if_pos hd] at hok
    injection hok with h
    injection h with h1 h2
    subst h1
    exact fun r hr => absurd hr (by simp)
  · rw [if_neg hd] at hok
    cases hq : env.embedQuery q with
    | error e => rw [hq] at hok; cases hok
    | ok qv =>
      rw [hq] at hok
      dsimp only at hok
      cases hsims : computeSims env s.distance_metric qv s.vectors
          s.metadata_list f with
      | error e => rw [hsims] at hok; cases hok
      | ok sims =>
        rw [hsims] at hok
        dsimp only at hok
        cases hbr : buildResults ((sortDesc sims).take k) s.documents with
        | error e => rw [hbr] at hok; cases hok
        | ok pr =>
          obtain ⟨res0, docs0⟩ := pr
          rw [hbr] at hok
          injection hok with h
          injection h with h1 h2
          subst h1
          exact buildResults_ok_mem _ _ _ _ hbr

/-- The successful-path equation of `add_documents`. -/
theorem add_documents_eq (env : Env) (s : Store) (d : Disk)
    (docs : List Document) (es : List Vec) (hne : docs ≠ [])
    (hembed : env.embedDocuments (docs.map (fun doc => doc.page_content)) =
      Except.ok es)
    (hsave : env.saveOk = true) :
    add_documents env s d docs =
      (Except.ok (addIds env s docs es), addResultStore s docs es,
       saveData (addResultStore s docs es) d) := by
  unfold add_documents
  rw [if_neg (by simpa using hne), hembed]
  dsimp only
  rw [if_pos hsave]

/-- The successful-path equation of `delete`. -/
theorem delete_eq (env : Env) (s : Store) (d : Disk) (ids : List String)
    (hne : ids ≠ []) (hsave : env.saveOk = true) :
    Store.delete env s d ids =
      (true, deleteResultStore env s ids,
       saveData (deleteResultStore env s ids) d) := by
  unfold Store.delete
  rw [if_neg (by simpa using hne), if_pos hsave]

/-- After a snapshot write, loading reads back the written documents,
provided the vectors file does not end up missing. -/
theorem loadStore_saveData_documents (s : Store) (d : Disk)
    (metric : String) (h : d.vectors_file ≠ none ∨ s.vectors ≠ []) :
    (loadStore (saveData s d) metric).documents = s.documents := by
  unfold loadStore loadData saveData
  by_cases hv : s.vectors.isEmpty = true
  · rw [if_pos hv]
    rcases h with h | h
    · obtain ⟨v, hv'⟩ := Option.ne_none_iff_exists'.mp h
      rw [hv']
    · exact absurd (List.isEmpty_iff.mp hv) h
  · rw [if_neg hv]

/-- C9: adding a batch and then deleting exactly the returned ids removes
every added chunk.  The surviving documents are a subsequence of the
pre-add documents; reloading the persisted snapshot yields exactly the
surviving documents; and every result a subsequent search returns —
whether over the live store or over the reloaded one — is (a
score-annotated copy of) a surviving document, never an added chunk. -/
theorem add_delete_roundtrip (env : Env) (s : Store) (d : Disk)
    (docs : List Document) (es : List Vec) (hne : docs ≠ [])
    (hembed : env.embedDocuments (docs.map (fun doc => doc.page_content)) =
      Except.ok es)
    (hlen : es.length = docs.length)
    (hsave : env.saveOk = true) :
    ∃ s₂ d₂,
      add_documents env s d docs =
        (Except.ok (addIds env s docs es), addResultStore s docs es,
         saveData (addResultStore s docs es) d) ∧
      Store.delete env (addResultStore s docs es)
        (saveData (addResultStore s docs es) d) (addIds env s docs es) =
        (true, s₂, d₂) ∧
      List.Sublist s₂.documents s.documents ∧
      (∀ metric, (loadStore d₂ metric).documents = s₂.documents) ∧
      (∀ q k f res s₃, search env s₂ q k f = Except.ok (res, s₃) →
        ∀ r ∈ res, ∃ doc ∈ s₂.documents, ∃ q0, r = setScore doc q0) ∧
      (∀ metric q k f res s₃,
        search env (loadStore d₂ metric) q k f = Except.ok (res, s₃) →
        ∀ r ∈ res, ∃ doc ∈ s₂.documents, ∃ q0, r = setScore doc q0) := by
  have hdocpos : 0 < docs.length := List.length_pos.mpr hne
  have hids_ne : addIds env s docs es ≠ [] := by
    apply List.ne_nil_of_length_pos
    unfold addIds
    rw [List.length_map, List.enum_length, List.length_zip]
    omega
  have hdocs₁ : (addResultStore s docs es).documents =
      s.documents ++ docs := addResultStore_documents s docs es hlen
  have hvec₁ : (addResultStore s docs es).vectors ≠ [] := by
    apply List.ne_nil_of_length_pos
    unfold addResultStore
    simp only [List.length_append, List.length_map, List.length_zip]
    omega
  have hall : ∀ p ∈ docs.enumFrom s.documents.length,
      deleteMatches env (addIds env s docs es)
        (addResultStore s docs es).metadata_list p.1 p.2 = true := by
    rw [List.forall_mem_enumFrom]
    intro i hi
    dsimp only
    unfold deleteMatches
    have hc : (addIds env s docs es).contains
        (mkDocId (s.documents.length + i)
          (env.pyhash (docs[i]).page_content)) = true := by
      have hgd := addIds_getElem env s docs es hlen i hi
      have hmem : mkDocId (s.documents.length + i)
          (env.pyhash (docs.getD i default).page_content) ∈
            addIds env s docs es :=
        List.getElem?_mem hgd
      rw [List.getD_eq_getElem?_getD, List.getElem?_eq_getElem hi] at hmem
      exact List.elem_eq_true_of_mem hmem
    rw [hc, Bool.true_or]
  have hidx : deleteIndices env (addResultStore s docs es)
      (addIds env s docs es) =
      ((s.documents.enum.filter (fun p =>
        deleteMatches env (addIds env s docs es)
          (addResultStore s docs es).metadata_list p.1 p.2)).map
        Prod.fst) ++
      List.range' s.documents.length docs.length := by
    unfold deleteIndices
    rw [hdocs₁, enum_append_eq, List.filter_append, List.map_append]
    congr 1
    rw [List.filter_eq_self.mpr hall]
    exact List.enumFrom_map_fst _ _
  have hkeydocs : (deleteResultStore env (addResultStore s docs es)
      (addIds env s docs es)).documents =
      eraseIdxs s.documents
        (((s.documents.enum.filter (fun p =>
          deleteMatches env (addIds env s docs es)
            (addResultStore s docs es).metadata_list p.1 p.2)).map
          Prod.fst)).reverse := by
    unfold deleteResultStore
    simp only
    rw [hidx, List.reverse_append, eraseIdxs_append, hdocs₁]
    congr 1
    exact eraseIdxs_reverse_range' s.documents docs.length docs rfl
  have hsubl : List.Sublist (deleteResultStore env (addResultStore s docs es)
      (addIds env s docs es)).documents s.documents := by
    rw [hkeydocs]
    exact eraseIdxs_sublist _ s.documents
  have hv1file : (saveData (addResultStore s docs es) d).vectors_file =
      some (addResultStore s docs es).vectors := by
    unfold saveData
    simp only [List.isEmpty_eq_false.mpr hvec₁, Bool.false_eq_true,
      if_false]
  have hload : ∀ metric,
      (loadStore (saveData (deleteResultStore env (addResultStore s docs es)
        (addIds env s docs es)) (saveData (addResultStore s docs es) d))
        metric).documents =
      (deleteResultStore env (addResultStore s docs es)
        (addIds env s docs es)).documents := by
    intro metric
    apply loadStore_saveData_documents
    left
    rw [hv1file]
    exact Option.some_ne_none _
  refine ⟨deleteResultStore env (addResultStore s docs es)
      (addIds env s docs es),
    saveData (deleteResultStore env (addResultStore s docs es)
      (addIds env s docs es)) (saveData (addResultStore s docs es) d),
    add_documents_eq env s d docs es hne hembed hsave,
    delete_eq env (addResultStore s docs es)
      (saveData (addResultStore s docs es) d) (addIds env s docs es)
      hids_ne hsave,
    hsubl, hload, ?_, ?_⟩
  · intro q k f res s₃ hok
    exact search_results_mem env _ q k f res s₃ hok
  · intro metric q k f res s₃ hok r hr
    obtain ⟨doc, hdmem, q0, hq0⟩ :=
      search_results_mem env _ q k f res s₃ hok r hr
    rw [hload metric] at hdmem
    exact ⟨doc, hdmem, q0, hq0⟩

/-- Witness for C9: one document added to the empty collection, then
deleted by its returned id; the surviving list is the (empty) original. -/
theorem add_delete_roundtrip_witness :
    ∃ s₂ d₂,
      add_documents exEnv ⟨[], [], [], "dotproduct"⟩ ⟨none, none, none⟩
        [exDoc] =
        (Except.ok (addIds exEnv ⟨[], [], [], "dotproduct"⟩ [exDoc] [[1]]),
         addResultStore ⟨[], [], [], "dotproduct"⟩ [exDoc] [[1]],
         saveData (addResultStore ⟨[], [], [], "dotproduct"⟩ [exDoc] [[1]])
           ⟨none, none, none⟩) ∧
      Store.delete exEnv
        (addResultStore ⟨[], [], [], "dotproduct"⟩ [exDoc] [[1]])
        (saveData (addResultStore ⟨[], [], [], "dotproduct"⟩ [exDoc] [[1]])
          ⟨none, none, none⟩)
        (addIds exEnv ⟨[], [], [], "dotproduct"⟩ [exDoc] [[1]]) =
        (true, s₂, d₂) ∧
      List.Sublist s₂.documents
        (⟨[], [], [], "dotproduct"⟩ : Store).documents ∧
      (∀ metric, (loadStore d₂ metric).documents = s₂.documents) ∧
      (∀ q k f res s₃, search exEnv s₂ q k f = Except.ok (res, s₃) →
        ∀ r ∈ res, ∃ doc ∈ s₂.documents, ∃ q0, r = setScore doc q0) ∧
      (∀ metric q k f res s₃,
        search exEnv (loadStore d₂ metric) q k f = Except.ok (res, s₃) →
        ∀ r ∈ res, ∃ doc ∈ s₂.documents, ∃ q0, r = setScore doc q0) :=
  add_delete_roundtrip exEnv ⟨[], [], [], "dotproduct"⟩ ⟨none, none, none⟩
    [exDoc] [[1]] (by decide) rfl rfl rfl
